import Mathlib

/-!
Verification development for the PiCam MJPEG streaming server
(`src/camera_server.py`).

Shallow embedding conventions:
* Byte strings and Python `str` values are modelled as `List Nat`
  (byte values, resp. Unicode code points).
* Fallible Python code (exceptions) is modelled with `Option`; the bare
  `except` in `check_auth` turns every failure into `false`.
* The shared frame buffer (`StreamingOutput`) together with the
  per-connection streaming loops is modelled as an explicit transition
  system with a ghost version counter (the number of `write` calls so
  far); condition-variable wakeups are modelled faithfully to CPython
  `threading.Condition`: a `wait()` can return only after a
  `notify_all()` that happened while the caller was waiting.
-/

/-- Code points of a Lean string literal, used to transcribe the ASCII
literals appearing in `camera_server.py`. -/
def asciiStr (s : String) : List Nat := s.toList.map Char.toNat

/-- Value of a standard base64-alphabet character (`A-Z`, `a-z`, `0-9`,
`+`, `/`), as used by `base64.b64decode`. -/
def b64Val (c : Nat) : Option Nat :=
  if 65 ≤ c ∧ c ≤ 90 then some (c - 65)
  else if 97 ≤ c ∧ c ≤ 122 then some (c - 71)
  else if 48 ≤ c ∧ c ≤ 57 then some (c + 4)
  else if c = 43 then some 62
  else if c = 47 then some 63
  else none

/-- The character loop of `binascii.a2b_base64` in non-strict mode
(which `base64.b64decode` calls when `validate=False`, the default),
transcribed from CPython `Modules/binascii.c`. Arguments after the
input: `quadPos` (position within the current four-character quad),
`leftchar` (bits carried from the previous data character), `pads`
(pad characters seen at quad positions ≥ 2 since the last data
character). Behavior, matching the C source:
* a character outside the alphabet that is not `=` is skipped;
* `=` (61) at quad position 0 or 1 is skipped without counting
  (the C `&&` short-circuits before `++pads`);
* `=` at quad position 2 or 3 increments `pads`; once
  `quadPos + pads ≥ 4` (second pad at position 2, first at position 3)
  decoding ends successfully and ALL remaining input is ignored;
* a data character resets `pads` to 0 and emits a byte at quad
  positions 1-3 (`(leftchar << 2) | (v >> 4)`, `(leftchar << 4) |
  (v >> 2)`, `(leftchar << 6) | v`);
* input exhausted at a nonzero quad position raises `binascii.Error`
  (`none` here: the "1 more than a multiple of 4" and "Incorrect
  padding" errors). -/
def a2bBase64Aux : List Nat → Nat → Nat → Nat → Option (List Nat)
  | [], quadPos, _, _ => if quadPos = 0 then some [] else none
  | c :: rest, quadPos, leftchar, pads =>
    if c = 61 then
      if 2 ≤ quadPos ∧ 4 ≤ quadPos + (pads + 1) then some []
      else if 2 ≤ quadPos then a2bBase64Aux rest quadPos leftchar (pads + 1)
      else a2bBase64Aux rest quadPos leftchar pads
    else
      match b64Val c with
      | none => a2bBase64Aux rest quadPos leftchar pads
      | some v =>
        if quadPos = 0 then a2bBase64Aux rest 1 v 0
        else if quadPos = 1 then
          match a2bBase64Aux rest 2 (v % 16) 0 with
          | some t => some ((leftchar * 4 + v / 16) :: t)
          | none => none
        else if quadPos = 2 then
          match a2bBase64Aux rest 3 (v % 4) 0 with
          | some t => some ((leftchar * 16 + v / 4) :: t)
          | none => none
        else
          match a2bBase64Aux rest 0 0 0 with
          | some t => some ((leftchar * 64 + v) :: t)
          | none => none

/-- Models `base64.b64decode(credentials)` where `credentials` is a
Python `str`: `_bytes_from_decode_data` encodes it as ASCII, so any
code point ≥ 128 raises (here: `none`); then, with the default
`validate=False`, the bytes go straight to non-strict
`binascii.a2b_base64` — see `a2bBase64Aux` for its leniencies
(skipped invalid characters, skipped misplaced pads, trailing data
after a complete pad sequence ignored). -/
def b64decode (s : List Nat) : Option (List Nat) :=
  if s.any (fun c => decide (128 ≤ c)) then none
  else a2bBase64Aux s 0 0 0

/-- Fuel-indexed UTF-8 decoder (fuel bounds the number of decoded code
points; `utf8Decode` supplies enough). Rejects invalid lead bytes,
truncated sequences, overlong encodings, surrogates and code points
above `0x10FFFF`, like Python's `bytes.decode('utf-8')`. -/
def utf8DecodeAux : Nat → List Nat → Option (List Nat)
  | _, [] => some []
  | 0, _ :: _ => none
  | fuel + 1, b :: rest =>
    if b < 128 then
      match utf8DecodeAux fuel rest with
      | some cps => some (b :: cps)
      | none => none
    else if b < 194 then none
    else if b < 224 then
      match rest with
      | c1 :: r =>
        if 128 ≤ c1 ∧ c1 < 192 then
          match utf8DecodeAux fuel r with
          | some cps => some (((b - 192) * 64 + (c1 - 128)) :: cps)
          | none => none
        else none
      | [] => none
    else if b < 240 then
      match rest with
      | c1 :: c2 :: r =>
        if (128 ≤ c1 ∧ c1 < 192) ∧ (128 ≤ c2 ∧ c2 < 192) then
          if 2048 ≤ (b - 224) * 4096 + (c1 - 128) * 64 + (c2 - 128) ∧
              ¬ (55296 ≤ (b - 224) * 4096 + (c1 - 128) * 64 + (c2 - 128) ∧
                 (b - 224) * 4096 + (c1 - 128) * 64 + (c2 - 128) ≤ 57343) then
            match utf8DecodeAux fuel r with
            | some cps => some (((b - 224) * 4096 + (c1 - 128) * 64 + (c2 - 128)) :: cps)
            | none => none
          else none
        else none
      | _ => none
    else if b < 245 then
      match rest with
      | c1 :: c2 :: c3 :: r =>
        if (128 ≤ c1 ∧ c1 < 192) ∧ (128 ≤ c2 ∧ c2 < 192) ∧ (128 ≤ c3 ∧ c3 < 192) then
          if 65536 ≤ (b - 240) * 262144 + (c1 - 128) * 4096 + (c2 - 128) * 64 + (c3 - 128) ∧
              (b - 240) * 262144 + (c1 - 128) * 4096 + (c2 - 128) * 64 + (c3 - 128) ≤ 1114111 then
            match utf8DecodeAux fuel r with
            | some cps => some (((b - 240) * 262144 + (c1 - 128) * 4096 + (c2 - 128) * 64 + (c3 - 128)) :: cps)
            | none => none
          else none
        else none
      | _ => none
    else none

/-- Models `bytes.decode('utf-8')`: `some` list of code points on valid
UTF-8 input, `none` (an exception in Python) otherwise. -/
def utf8Decode (bs : List Nat) : Option (List Nat) := utf8DecodeAux bs.length bs

/-- `splitOnce sep l` splits `l` at the FIRST occurrence of `sep` and is
`none` when `sep` does not occur. Models Python `s.split(sep, 1)`
followed by two-name tuple unpacking (which raises, hence `none`, when
the separator is absent). -/
def splitOnce (sep : Nat) : List Nat → Option (List Nat × List Nat)
  | [] => none
  | c :: rest =>
    if c = sep then some ([], rest)
    else
      match splitOnce sep rest with
      | some (x, y) => some (c :: x, y)
      | none => none

/-- Models Python `str.lower()` restricted to the ASCII range. (No
non-ASCII code point has a `str.lower` image that could make a string
equal to the pure-ASCII token `"basic"`, so this restriction is
invisible to the comparison performed in `check_auth`.) -/
def pyLower (s : List Nat) : List Nat :=
  s.map fun c => if 65 ≤ c ∧ c ≤ 90 then c + 32 else c

/-- `AuthHandler.check_auth` (`src/camera_server.py`, lines 37-51),
parameterised by the configured `USERNAME`/`PASSWORD` (read from the
environment at startup, defaults `admin`/`pogocam2025`). The Python
`if not auth_header` guard treats both a missing header and an empty
header as absent; the bare `except` maps every parse failure to
`False`. -/
def check_auth (USERNAME PASSWORD : List Nat) (auth_header : Option (List Nat)) : Bool :=
  match auth_header with
  | none => false
  | some s =>
    if s = [] then false
    else
      match splitOnce 32 s with
      | none => false
      | some (auth_type, credentials) =>
        if pyLower auth_type ≠ asciiStr "basic" then false
        else
          match b64decode credentials with
          | none => false
          | some bs =>
            match utf8Decode bs with
            | none => false
            | some decoded =>
              match splitOnce 58 decoded with
              | none => false
              | some (username, password) =>
                username == USERNAME && password == PASSWORD

/-- Auxiliary decimal printer: big-endian ASCII digits of `n`, with
enough fuel. -/
def decDigitsAux : Nat → Nat → List Nat
  | 0, _ => []
  | fuel + 1, n => if n = 0 then [] else decDigitsAux fuel (n / 10) ++ [n % 10 + 48]

/-- ASCII decimal representation of `n`; models Python `str(len(frame))`. -/
def natToDec (n : Nat) : List Nat := if n = 0 then [48] else decDigitsAux (n + 1) n

/-- Read a big-endian ASCII digit string back as a number. -/
def decDecode (ds : List Nat) : Nat := ds.foldl (fun a d => a * 10 + (d - 48)) 0

/-- The four connection-level writes of one multipart part emitted by
the streaming loop (`src/camera_server.py`, lines 242-247): the
boundary line `--FRAME`; the per-part header block buffered by the two
`send_header` calls and flushed as one write by `end_headers`; the raw
JPEG bytes; and the trailing CRLF. -/
def framePartChunks (frame : List Nat) : List (List Nat) :=
  [asciiStr "--FRAME\r\n",
   asciiStr "Content-Type: image/jpeg\r\n" ++ asciiStr "Content-Length: " ++
     natToDec frame.length ++ asciiStr "\r\n" ++ asciiStr "\r\n",
   frame,
   asciiStr "\r\n"]

/-- All bytes of one multipart part, in the order they reach the client. -/
def framePart (frame : List Nat) : List Nat := (framePartChunks frame).flatten

/-- Events of one streaming session's loop. -/
inductive SEv where
  | waited (frame : List Nat)
  | wrote (bytes : List Nat)
  | raised
deriving DecidableEq

/-- Terminal status of a streaming session. -/
inductive SPhase where
  | streaming
  | closed
deriving DecidableEq

/-- The `while True` streaming loop of `AuthHandler.do_GET`
(lines 236-249), driven by a schedule: each entry supplies the frame
the next `condition.wait()` observes and how many of the four
connection writes of that iteration succeed before one raises. A raise
is caught by the surrounding `except`, which logs and returns: the
session is then closed and performs no further waits or writes. An
exhausted schedule leaves the session alive, blocked in `wait()`. -/
def runStream : List (List Nat × Nat) → List SEv × SPhase
  | [] => ([], SPhase.streaming)
  | (f, ok) :: rest =>
    if 4 ≤ ok then
      ((SEv.waited f :: (framePartChunks f).map SEv.wrote) ++ (runStream rest).1,
        (runStream rest).2)
    else
      ((SEv.waited f :: ((framePartChunks f).take ok).map SEv.wrote) ++ [SEv.raised],
        SPhase.closed)

/-- Observable events of one `AuthHandler.do_GET` call. Header names
and values are kept as string literals transcribed from the source. -/
inductive HEv where
  | sentResponse (code : Nat)
  | sentHeader (name value : String)
  | endedHeaders
  | wroteBody (bytes : List Nat)
  | wroteLandingPage
  | slotWait (frame : List Nat)
  | sentError (code : Nat)
  | writeFailed
deriving DecidableEq

/-- `AuthHandler.send_auth_request` (lines 53-58): the fixed 401
challenge response, identical for every failed credential check. -/
def send_auth_request : List HEv :=
  [HEv.sentResponse 401,
   HEv.sentHeader "WWW-Authenticate" "Basic realm=\"Pi Camera\"",
   HEv.sentHeader "Content-Type" "text/html",
   HEv.endedHeaders,
   HEv.wroteBody (asciiStr "<h1>401 - Authentication Required</h1>")]

/-- Response line and headers of the stream endpoint (lines 229-234). -/
def streamHeaders : List HEv :=
  [HEv.sentResponse 200,
   HEv.sentHeader "Content-Type" "multipart/x-mixed-replace; boundary=FRAME",
   HEv.sentHeader "Cache-Control" "no-cache, no-store, must-revalidate",
   HEv.sentHeader "Pragma" "no-cache",
   HEv.sentHeader "Expires" "0",
   HEv.endedHeaders]

/-- Landing page response (lines 65-68 and 226); the static HTML body
is immaterial to every claim and represented by one event. -/
def landingEvents : List HEv :=
  [HEv.sentResponse 200,
   HEv.sentHeader "Content-Type" "text/html",
   HEv.endedHeaders,
   HEv.wroteLandingPage]

/-- Streaming-loop events as connection events: a completed
`condition.wait()` reads the frame slot, a chunk write sends bytes, a
raise ends the session. -/
def sevToHEv : SEv → HEv
  | SEv.waited f => HEv.slotWait f
  | SEv.wrote b => HEv.wroteBody b
  | SEv.raised => HEv.writeFailed

/-- `AuthHandler.do_GET` (lines 60-252) as an event trace: the
credential check runs first on every path; only on success does the
request reach the routing on `self.path`. `sched` drives the streaming
loop when the stream path is taken. -/
def do_GET (USERNAME PASSWORD : List Nat) (hdr : Option (List Nat)) (path : String)
    (sched : List (List Nat × Nat)) : List HEv :=
  if check_auth USERNAME PASSWORD hdr = false then send_auth_request
  else if path = "/" ∨ path = "/index.html" then landingEvents
  else if path = "/stream.mjpg" then streamHeaders ++ (runStream sched).1.map sevToHEv
  else [HEv.sentError 404]

/-- Steps of the `__main__` block (lines 258-281), in program order. -/
inductive MEv where
  | cameraInit
  | cameraConfigure
  | startRecording
  | boundListener
  | served
  | stoppedRecording
  | cameraStopped
deriving DecidableEq

/-- The `__main__` block (lines 258-281): camera construction,
configuration and `start_recording` run before the `try` block; the
`HTTPServer` constructor (which binds the listening socket) and
`serve_forever` run inside it. Each Boolean says whether the
corresponding fallible step succeeds. An exception raised before the
`try` propagates uncaught: the process exits non-zero (exit code 1)
without executing any later step. A bind failure inside the `try` is
not caught by `except KeyboardInterrupt`, so the `finally` block stops
the camera and the process still exits non-zero. In the successful run,
`serve_forever` ends by `KeyboardInterrupt`, which is caught, and the
process exits 0. The result is the list of completed steps and the
process exit code. -/
def mainRun (initOk configOk startOk bindOk : Bool) : List MEv × Nat :=
  if initOk then
    if configOk then
      if startOk then
        if bindOk then
          ([MEv.cameraInit, MEv.cameraConfigure, MEv.startRecording, MEv.boundListener,
            MEv.served, MEv.stoppedRecording, MEv.cameraStopped], 0)
        else
          ([MEv.cameraInit, MEv.cameraConfigure, MEv.startRecording,
            MEv.stoppedRecording, MEv.cameraStopped], 1)
      else ([MEv.cameraInit, MEv.cameraConfigure], 1)
    else ([MEv.cameraInit], 1)
  else ([], 1)

/-- The shared frame slot of `StreamingOutput` (lines 26-34): the held
frame plus a ghost version counter equal to the number of `write`
calls so far (the Python object has no explicit counter; the counter
is proof instrumentation that numbers the publishes). -/
structure Slot where
  frame : Option (List Nat)
  version : Nat
deriving DecidableEq

/-- Where one streaming session stands with respect to the slot:
`running lastSeen` = outside `condition.wait()`, having last observed
the publish numbered `lastSeen` (0 = none yet); `waiting since` =
blocked in `condition.wait()` entered when the slot version was
`since`. -/
inductive SessPhase where
  | running (lastSeen : Nat)
  | waiting (since : Nat)
deriving DecidableEq

/-- Global state: the single `StreamingOutput` slot plus the phases of
the streaming sessions (one per connected client). -/
structure SysState where
  slot : Slot
  sessions : List SessPhase
deriving DecidableEq

/-- Interleaved actions of the producer and the sessions. -/
inductive Act where
  | publish (buf : List Nat)
  | startWait (i : Nat)
  | wake (i : Nat)

/-- Observable events of a slot run. -/
inductive Ev where
  | published (buf : List Nat)
  | observed (i : Nat) (buf : List Nat) (version : Nat)
deriving DecidableEq

/-- One interleaving step.

* `publish buf`: `StreamingOutput.write` (lines 31-34) under the
  condition's lock: replace the held frame, bump the ghost version and
  `notify_all` the waiters.
* `startWait i`: session `i` re-acquires the lock and enters
  `output.condition.wait()` (line 239); it records the current version
  as `since` (ghost).
* `wake i`: session `i` returns from `wait()` holding the lock and
  reads `output.frame` (line 240). Faithful to CPython
  `threading.Condition`, a waiter can return only after a
  `notify_all` issued while it was waiting, i.e. only when the version
  has moved past `since`; there are no spurious wakeups. -/
def step (s : SysState) : Act → Option (SysState × List Ev)
  | Act.publish buf =>
    some ({ s with slot := { frame := some buf, version := s.slot.version + 1 } },
      [Ev.published buf])
  | Act.startWait i =>
    match s.sessions[i]? with
    | some (SessPhase.running _) =>
      some ({ s with sessions := s.sessions.set i (SessPhase.waiting s.slot.version) }, [])
    | _ => none
  | Act.wake i =>
    match s.sessions[i]? with
    | some (SessPhase.waiting w) =>
      if w < s.slot.version then
        match s.slot.frame with
        | some b =>
          some ({ s with sessions := s.sessions.set i (SessPhase.running s.slot.version) },
            [Ev.observed i b s.slot.version])
        | none => none
      else none
    | _ => none

/-- Run a sequence of interleaved actions, collecting events. -/
def run (s : SysState) : List Act → Option (SysState × List Ev)
  | [] => some (s, [])
  | a :: rest =>
    match step s a with
    | none => none
    | some (s1, es) =>
      match run s1 rest with
      | none => none
      | some (s2, es') => some (s2, es ++ es')

/-- Initial state: no frame ever published, `n` freshly accepted
sessions, none of which has observed anything. -/
def initState (n : Nat) : SysState :=
  { slot := { frame := none, version := 0 },
    sessions := List.replicate n (SessPhase.running 0) }

/-- The buffers passed to `StreamingOutput.write`, in publish order. -/
def pubsOf (ev : List Ev) : List (List Nat) :=
  ev.filterMap fun e =>
    match e with
    | Ev.published b => some b
    | _ => none

/-- The versions session `i` observed, in order. -/
def obsOf (i : Nat) (ev : List Ev) : List Nat :=
  ev.filterMap fun e =>
    match e with
    | Ev.observed j _ v => if j = i then some v else none
    | _ => none

/-- Per-session relation between the ghost version counter, the
versions the session has observed so far, and its phase: the observed
versions form a strictly increasing chain bounded by the slot version,
a running session remembers the last observed version, and a waiting
session entered the wait no earlier than its last observation. -/
def SessionOK (ver : Nat) (obs : List Nat) : SessPhase → Prop
  | SessPhase.running l => List.Chain' (· < ·) obs ∧ obs.getLast?.getD 0 = l ∧ l ≤ ver
  | SessPhase.waiting w => List.Chain' (· < ·) obs ∧ obs.getLast?.getD 0 ≤ w ∧ w ≤ ver

/-- Trace-level soundness of observations: an observation recorded at
position `k` carries a version `v ≥ 1` such that at least `v` publishes
precede position `k`, and its buffer is exactly the `v`-th published
buffer. -/
def ObsSound (ev : List Ev) : Prop :=
  ∀ k i b v, ev[k]? = some (Ev.observed i b v) →
    1 ≤ v ∧ v ≤ (pubsOf (ev.take k)).length ∧ (pubsOf (ev.take k))[v - 1]? = some b

/-- The inductive invariant of the slot transition system. -/
structure SlotInv (s : SysState) (ev : List Ev) : Prop where
  ver : s.slot.version = (pubsOf ev).length
  frm : s.slot.frame = (pubsOf ev).getLast?
  sess : ∀ i, SessionOK s.slot.version (obsOf i ev)
    ((s.sessions[i]?).getD (SessPhase.running 0))
  sound : ObsSound ev

/-- Acceptance condition read off the specification of
`Authenticator.Validate`: the header is present, its scheme token
matches Basic, its payload base64-decodes, the decoded bytes are valid
UTF-8, they split at a `:` separator, and the resulting pair equals the
configured credentials exactly (case-sensitively). -/
def basicAuthAccepts (USERNAME PASSWORD : List Nat) (hdr : Option (List Nat)) : Prop :=
  ∃ s t c bs cps u p,
    hdr = some s ∧
    splitOnce 32 s = some (t, c) ∧
    pyLower t = asciiStr "basic" ∧
    b64decode c = some bs ∧
    utf8Decode bs = some cps ∧
    splitOnce 58 cps = some (u, p) ∧
    u = USERNAME ∧ p = PASSWORD

example : check_auth (asciiStr "admin") (asciiStr "secret")
    (some (asciiStr "Basic YWRtaW46c2VjcmV0")) = true := by decide

example : check_auth (asciiStr "admin") (asciiStr "secret")
    (some (asciiStr "Basic YWRtaW46U2VjcmV0")) = false := by decide

example : check_auth (asciiStr "admin") (asciiStr "secret") none = false := by decide

example : check_auth (asciiStr "admin") (asciiStr "secret")
    (some (asciiStr "Bearer YWRtaW46c2VjcmV0")) = false := by decide

example : check_auth (asciiStr "admin") (asciiStr "secret")
    (some (asciiStr "BASIC YWRtaW46c2VjcmV0")) = true := by decide

example : b64decode (asciiStr "YWRtaW46c2VjcmV0=") = some (asciiStr "admin:secret") := by
  decide

example : b64decode (asciiStr "=YWRtaW46c2VjcmV0") = some (asciiStr "admin:secret") := by
  decide

example : b64decode (asciiStr "YWRt=aW46c2VjcmV0") = some (asciiStr "admin:secret") := by
  decide

example : b64decode (asciiStr "YQ==garbage") = some (asciiStr "a") := by decide

example : b64decode (asciiStr "QQ") = none := by decide

example : b64decode (asciiStr "QQ=") = none := by decide

example : check_auth (asciiStr "admin") (asciiStr "secret")
    (some (asciiStr "Basic YWRtaW46c2VjcmV0=")) = true := by decide

example :
    run (initState 1) [Act.startWait 0, Act.publish [7], Act.wake 0] =
      some ({ slot := { frame := some [7], version := 1 },
              sessions := [SessPhase.running 1] },
            [Ev.published [7], Ev.observed 0 [7] 1]) := by decide

example :
    run (initState 1) [Act.startWait 0, Act.wake 0] = none := by decide

/-- If indexing past a single-element extension succeeds, the index hit
either the original list or the appended element. -/
theorem getq_concat_cases {α : Type} {l : List α} {e x : α} {k : Nat}
    (h : (l ++ [e])[k]? = some x) :
    (k < l.length ∧ l[k]? = some x) ∨ (k = l.length ∧ x = e) := by
  rcases Nat.lt_trichotomy k l.length with hk | hk | hk
  · left
    refine ⟨hk, ?_⟩
    rw [List.getElem?_append] at h
    simpa [hk] using h
  · right
    subst hk
    simp only [List.getElem?_append_right (Nat.le_refl _), Nat.sub_self] at h
    simp at h
    exact ⟨rfl, h.symm⟩
  · exfalso
    have hlen : (l ++ [e]).length ≤ k := by simp; omega
    rw [List.getElem?_eq_none hlen] at h
    exact Option.noConfusion h

/-- A successful lookup is within bounds. -/
theorem getq_lt_length {α : Type} {l : List α} {x : α} {k : Nat}
    (h : l[k]? = some x) : k < l.length := by
  by_contra hk
  push_neg at hk
  rw [List.getElem?_eq_none hk] at h
  exact Option.noConfusion h

/-- Appending strictly above every element keeps a `<`-chain a chain. -/
theorem chain_snoc {obs : List Nat} {v : Nat}
    (hc : List.Chain' (· < ·) obs) (hl : obs.getLast?.getD 0 < v) :
    List.Chain' (· < ·) (obs ++ [v]) := by
  rw [List.chain'_append]
  refine ⟨hc, List.chain'_singleton v, ?_⟩
  intro x hx y hy
  simp only [List.head?_cons, Option.mem_def, Option.some.injEq] at hy
  subst hy
  rw [Option.mem_def] at hx
  rw [hx] at hl
  simpa using hl

theorem pubsOf_append (ev es : List Ev) : pubsOf (ev ++ es) = pubsOf ev ++ pubsOf es :=
  List.filterMap_append ev es _

theorem obsOf_append (i : Nat) (ev es : List Ev) :
    obsOf i (ev ++ es) = obsOf i ev ++ obsOf i es :=
  List.filterMap_append ev es _

theorem pubsOf_observed (i : Nat) (b : List Nat) (v : Nat) :
    pubsOf [Ev.observed i b v] = [] := rfl

theorem pubsOf_published (b : List Nat) : pubsOf [Ev.published b] = [b] := rfl

theorem obsOf_published (i : Nat) (b : List Nat) : obsOf i [Ev.published b] = [] := rfl

theorem obsOf_observed_same (i : Nat) (b : List Nat) (v : Nat) :
    obsOf i [Ev.observed i b v] = [v] := by simp [obsOf]

theorem obsOf_observed_ne {i j : Nat} (h : j ≠ i) (b : List Nat) (v : Nat) :
    obsOf i [Ev.observed j b v] = [] := by simp [obsOf, h]

theorem sessionOK_mono {ver ver' : Nat} {obs : List Nat} {ph : SessPhase}
    (hv : ver ≤ ver') (h : SessionOK ver obs ph) : SessionOK ver' obs ph := by
  cases ph with
  | running l => exact ⟨h.1, h.2.1, Nat.le_trans h.2.2 hv⟩
  | waiting w => exact ⟨h.1, h.2.1, Nat.le_trans h.2.2 hv⟩

theorem slotInv_init (n : Nat) : SlotInv (initState n) [] := by
  refine ⟨rfl, rfl, ?_, ?_⟩
  · intro i
    rcases hi : (List.replicate n (SessPhase.running 0))[i]? with _ | ph
    · simp [initState, hi, SessionOK, obsOf]
    · have : ph = SessPhase.running 0 := by
        have := List.getElem?_mem hi
        simpa using List.eq_of_mem_replicate this
      subst this
      simp [initState, hi, SessionOK, obsOf]
  · intro k i b v h
    simp at h

/-- The invariant is preserved by every step of the slot system. -/
theorem step_inv {s : SysState} {ev : List Ev} {a : Act} {s' : SysState} {es : List Ev}
    (hinv : SlotInv s ev) (hstep : step s a = some (s', es)) :
    SlotInv s' (ev ++ es) := by
  cases a with
  | publish buf =>
    simp only [step, Option.some.injEq, Prod.mk.injEq] at hstep
    obtain ⟨hs', hes⟩ := hstep
    subst hs'
    subst hes
    refine ⟨?_, ?_, ?_, ?_⟩
    · simp [pubsOf_append, pubsOf_published, hinv.ver]
    · simp [pubsOf_append, pubsOf_published, List.getLast?_concat]
    · intro i
      rw [obsOf_append, obsOf_published, List.append_nil]
      exact sessionOK_mono (Nat.le_succ _) (hinv.sess i)
    · intro k i b v h
      rcases getq_concat_cases h with ⟨hk, hk2⟩ | ⟨hk, he⟩
      · rw [List.take_append_of_le_length (Nat.le_of_lt hk)]
        exact hinv.sound k i b v hk2
      · simp at he
  | startWait i =>
    simp only [step] at hstep
    split at hstep
    next l heq =>
      simp only [Option.some.injEq, Prod.mk.injEq] at hstep
      obtain ⟨hs', hes⟩ := hstep
      subst hs'
      subst hes
      rw [List.append_nil]
      have hlen : i < s.sessions.length := getq_lt_length heq
      refine ⟨hinv.ver, hinv.frm, ?_, hinv.sound⟩
      intro j
      by_cases hj : j = i
      · subst hj
        rw [List.getElem?_set_self hlen]
        have hold := hinv.sess j
        rw [heq] at hold
        simp only [Option.getD_some] at hold
        simp only [Option.getD_some, SessionOK] at hold ⊢
        exact ⟨hold.1, by rw [hold.2.1]; exact hold.2.2, Nat.le_refl _⟩
      · rw [List.getElem?_set_ne (Ne.symm hj)]
        exact hinv.sess j
    next _ =>
      exact Option.noConfusion hstep
  | wake i =>
    simp only [step] at hstep
    split at hstep
    next w heq =>
      split at hstep
      next hw =>
        split at hstep
        next b heqf =>
          simp only [Option.some.injEq, Prod.mk.injEq] at hstep
          obtain ⟨hs', hes⟩ := hstep
          subst hs'
          subst hes
          have hlen : i < s.sessions.length := getq_lt_length heq
          refine ⟨?_, ?_, ?_, ?_⟩
          · simp [pubsOf_append, pubsOf_observed, hinv.ver]
          · simp [pubsOf_append, pubsOf_observed, hinv.frm]
          · intro j
            rw [obsOf_append]
            by_cases hj : j = i
            · subst hj
              rw [obsOf_observed_same, List.getElem?_set_self hlen]
              have hold := hinv.sess j
              rw [heq] at hold
              simp only [Option.getD_some] at hold
              simp only [Option.getD_some, SessionOK] at hold ⊢
              refine ⟨chain_snoc hold.1 (Nat.lt_of_le_of_lt hold.2.1 hw), ?_, Nat.le_refl _⟩
              rw [List.getLast?_concat]
              rfl
            · rw [obsOf_observed_ne (Ne.symm hj), List.append_nil,
                List.getElem?_set_ne (Ne.symm hj)]
              exact hinv.sess j
          · intro k i' b' v' h
            rcases getq_concat_cases h with ⟨hk, hk2⟩ | ⟨hk, he⟩
            · rw [List.take_append_of_le_length (Nat.le_of_lt hk)]
              exact hinv.sound k i' b' v' hk2
            · simp only [Ev.observed.injEq] at he
              obtain ⟨hi', hb', hv'⟩ := he
              subst hi'
              subst hb'
              subst hv'
              subst hk
              rw [List.take_append_of_le_length (Nat.le_refl _), List.take_length]
              refine ⟨by omega, Nat.le_of_eq hinv.ver, ?_⟩
              rw [hinv.ver, ← List.getLast?_eq_getElem?, ← hinv.frm]
              exact heqf
        next heqf =>
          exact Option.noConfusion hstep
      next hw =>
        exact Option.noConfusion hstep
    next _ =>
      exact Option.noConfusion hstep

/-- The invariant holds at the end of every successful run. -/
theorem run_inv {s : SysState} {ev : List Ev} {acts : List Act} {s' : SysState} {ev' : List Ev}
    (hinv : SlotInv s ev) (hrun : run s acts = some (s', ev')) :
    SlotInv s' (ev ++ ev') := by
  induction acts generalizing s ev s' ev' with
  | nil =>
    simp only [run, Option.some.injEq, Prod.mk.injEq] at hrun
    obtain ⟨h1, h2⟩ := hrun
    subst h1
    subst h2
    simpa using hinv
  | cons a rest ih =>
    simp only [run] at hrun
    split at hrun
    next =>
      exact Option.noConfusion hrun
    next s1 es hsa =>
      split at hrun
      next =>
        exact Option.noConfusion hrun
      next s2 es' hr =>
        simp only [Option.some.injEq, Prod.mk.injEq] at hrun
        obtain ⟨h1, h2⟩ := hrun
        subst h1
        subst h2
        have h4 := ih (step_inv hinv hsa) hr
        simpa [List.append_assoc] using h4

/-- Decompose a successful run of a concatenated action list. -/
theorem run_append {s : SysState} {l1 l2 : List Act} {s' : SysState} {ev : List Ev}
    (h : run s (l1 ++ l2) = some (s', ev)) :
    ∃ s1 e1 e2, run s l1 = some (s1, e1) ∧ run s1 l2 = some (s', e2) ∧ ev = e1 ++ e2 := by
  induction l1 generalizing s ev with
  | nil =>
    exact ⟨s, [], ev, rfl, by simpa using h, rfl⟩
  | cons a rest ih =>
    simp only [List.cons_append, run] at h
    split at h
    next =>
      exact Option.noConfusion h
    next s1 es hsa =>
      split at h
      next =>
        exact Option.noConfusion h
      next s2 es2 hr =>
        simp only [Option.some.injEq, Prod.mk.injEq] at h
        obtain ⟨h1, h2⟩ := h
        subst h1
        obtain ⟨t1, e1, e2, ha, hb, hc⟩ := ih hr
        refine ⟨t1, es ++ e1, e2, ?_, hb, ?_⟩
        · simp only [run, hsa, ha]
        · rw [← h2, hc, List.append_assoc]

/-- One-step unfolding of `run`. -/
theorem run_cons (s : SysState) (a : Act) (rest : List Act) :
    run s (a :: rest) =
      match step s a with
      | none => none
      | some (s1, es) =>
        match run s1 rest with
        | none => none
        | some (s2, es') => some (s2, es ++ es') := rfl

/-- Running a nonempty block of publishes with no wake in between:
the slot ends holding exactly the last published buffer, the version
advances by the block length, and the sessions are untouched —
intermediate buffers are overwritten (lossy coalescing). -/
theorem run_publish_last {bufs : List (List Nat)} {lastbuf : List Nat}
    (h : bufs.getLast? = some lastbuf) (s : SysState) :
    run s (bufs.map Act.publish) =
      some ({ slot := { frame := some lastbuf, version := s.slot.version + bufs.length },
              sessions := s.sessions },
            bufs.map Ev.published) := by
  induction bufs generalizing s with
  | nil =>
    exact Option.noConfusion h
  | cons b rest ih =>
    cases rest with
    | nil =>
      simp only [List.getLast?_singleton, Option.some.injEq] at h
      subst h
      simp [run, step]
    | cons c rest2 =>
      rw [List.getLast?_cons_cons] at h
      have ih2 := ih h { s with slot := { frame := some b, version := s.slot.version + 1 } }
      rw [List.map_cons, run_cons]
      simp only [step]
      rw [ih2]
      dsimp only
      have harith : s.slot.version + 1 + (c :: rest2).length =
          s.slot.version + (b :: c :: rest2).length := by
        simp only [List.length_cons]
        omega
      rw [harith]
      rfl

/-- Anatomy of a successful wake step. -/
theorem step_wake {s s' : SysState} {es : List Ev} {i : Nat}
    (h : step s (Act.wake i) = some (s', es)) :
    ∃ w b, s.sessions[i]? = some (SessPhase.waiting w) ∧ w < s.slot.version ∧
      s.slot.frame = some b ∧
      s' = { s with sessions := s.sessions.set i (SessPhase.running s.slot.version) } ∧
      es = [Ev.observed i b s.slot.version] := by
  simp only [step] at h
  split at h
  next w heq =>
    split at h
    next hw =>
      split at h
      next b heqf =>
        simp only [Option.some.injEq, Prod.mk.injEq] at h
        exact ⟨w, b, heq, hw, heqf, h.1.symm, h.2.symm⟩
      next =>
        exact Option.noConfusion h
    next =>
      exact Option.noConfusion h
  next =>
    exact Option.noConfusion h

/-- C1: in every run of the slot system, each session observes frames in
strictly increasing version order, and every observation made at trace
position `k` carries a version `v ≥ 1` that is covered by publishes
occurring strictly before position `k` — the wait never returns before
a genuinely newer frame (version strictly above everything the session
saw) has been published, and never yields a version ≤ a previously
observed one. -/
theorem C1_wait_monotone {n : Nat} {acts : List Act} {s : SysState} {ev : List Ev}
    (h : run (initState n) acts = some (s, ev)) (i : Nat) :
    List.Chain' (· < ·) (obsOf i ev) ∧
    ∀ k b v, ev[k]? = some (Ev.observed i b v) →
      1 ≤ v ∧ v ≤ (pubsOf (ev.take k)).length ∧ (pubsOf (ev.take k))[v - 1]? = some b := by
  have hinv := run_inv (slotInv_init n) h
  rw [List.nil_append] at hinv
  constructor
  · have hs := hinv.sess i
    cases hph : (s.sessions[i]?).getD (SessPhase.running 0) with
    | running l =>
      rw [hph] at hs
      exact hs.1
    | waiting w =>
      rw [hph] at hs
      exact hs.1
  · intro k b v hk
    exact hinv.sound k i b v hk

/-- Closed witness for C1: a concrete run (wait, publish, wake). -/
theorem C1_wait_monotone_witness :
    List.Chain' (· < ·) (obsOf 0 [Ev.published [7], Ev.observed 0 [7] 1]) :=
  (@C1_wait_monotone 1 [Act.startWait 0, Act.publish [7], Act.wake 0]
    ⟨⟨some [7], 1⟩, [SessPhase.running 1]⟩ [Ev.published [7], Ev.observed 0 [7] 1]
    (by decide) 0).1

/-- C7: every frame a session observes (and hence every frame body it
writes) is exactly one of the complete buffers previously passed to
`StreamingOutput.write` — no torn or mixed frames, since the reference
is replaced and read under the condition's lock. -/
theorem C7_no_torn_frames {n : Nat} {acts : List Act} {s : SysState} {ev : List Ev}
    (h : run (initState n) acts = some (s, ev)) :
    ∀ k i b v, ev[k]? = some (Ev.observed i b v) →
      b ∈ pubsOf (ev.take k) ∧ b ∈ pubsOf ev := by
  have hinv := run_inv (slotInv_init n) h
  rw [List.nil_append] at hinv
  intro k i b v hk
  have hs := hinv.sound k i b v hk
  have hmem : b ∈ pubsOf (ev.take k) := List.getElem?_mem hs.2.2
  refine ⟨hmem, ?_⟩
  have hsplit : pubsOf ev = pubsOf (ev.take k) ++ pubsOf (ev.drop k) := by
    rw [← pubsOf_append, List.take_append_drop]
  rw [hsplit]
  exact List.mem_append_left _ hmem

/-- Closed witness for C7 at a concrete run. -/
theorem C7_no_torn_frames_witness :
    [7] ∈ pubsOf ([Ev.published [7], Ev.observed 0 [7] 1].take 1) ∧
    [7] ∈ pubsOf [Ev.published [7], Ev.observed 0 [7] 1] :=
  @C7_no_torn_frames 1 [Act.startWait 0, Act.publish [7], Act.wake 0]
    ⟨⟨some [7], 1⟩, [SessPhase.running 1]⟩ [Ev.published [7], Ev.observed 0 [7] 1]
    (by decide) 1 0 [7] 1 (by decide)

/-- C3: lossy coalescing. If a block of publishes runs with no wake in
between and a session then wakes, it observes exactly the last
published buffer — intermediate frames are overwritten, never
delivered. -/
theorem C3_lossy_coalescing {n : Nat} {pre : List Act} {bufs : List (List Nat)}
    {lastbuf : List Nat} {i : Nat} {s : SysState} {ev : List Ev}
    (hlast : bufs.getLast? = some lastbuf)
    (h : run (initState n) (pre ++ (bufs.map Act.publish ++ [Act.wake i])) = some (s, ev)) :
    s.slot.frame = some lastbuf ∧
    ev.getLast? = some (Ev.observed i lastbuf s.slot.version) := by
  obtain ⟨s1, e1, e23, h1, h23, hev⟩ := run_append h
  obtain ⟨s2, e2, e3, h2, h3, hev2⟩ := run_append h23
  rw [run_publish_last hlast s1] at h2
  simp only [Option.some.injEq, Prod.mk.injEq] at h2
  obtain ⟨hs2, he2⟩ := h2
  rw [run_cons] at h3
  split at h3
  next =>
    exact Option.noConfusion h3
  next sw es hsw =>
    simp only [run, List.append_nil, Option.some.injEq, Prod.mk.injEq] at h3
    obtain ⟨hsx, he3⟩ := h3
    obtain ⟨w, b, hwt, hlt, hfr, hsw', hes⟩ := step_wake hsw
    have hslot : s.slot = s2.slot := by
      rw [← hsx, hsw']
    have hb : lastbuf = b := by
      rw [← hs2] at hfr
      simpa using hfr
    constructor
    · rw [hslot, ← hs2]
    · have he3' : e3 = [Ev.observed i b s2.slot.version] := by
        rw [← he3, hes]
      rw [hev, hev2, he3', ← List.append_assoc, List.getLast?_concat, hb, hslot]

/-- Closed witness for C3: three rapid publishes, then one wake — the
session sees the third frame only. -/
theorem C3_lossy_coalescing_witness :
    (⟨⟨some [3], 3⟩, [SessPhase.running 3]⟩ : SysState).slot.frame = some [3] ∧
    ([Ev.published [1], Ev.published [2], Ev.published [3],
        Ev.observed 0 [3] 3].getLast? =
      some (Ev.observed 0 [3]
        (⟨⟨some [3], 3⟩, [SessPhase.running 3]⟩ : SysState).slot.version)) :=
  @C3_lossy_coalescing 1 [Act.startWait 0] [[1], [2], [3]] [3] 0
    ⟨⟨some [3], 3⟩, [SessPhase.running 3]⟩
    [Ev.published [1], Ev.published [2], Ev.published [3], Ev.observed 0 [3] 3]
    (by decide) (by decide)

/-- The part before the first separator contains no separator. -/
theorem splitOnce_fst_no_sep {sep : Nat} :
    ∀ {l x y : List Nat}, splitOnce sep l = some (x, y) → sep ∉ x := by
  intro l
  induction l with
  | nil =>
    intro x y h
    exact Option.noConfusion h
  | cons c rest ih =>
    intro x y h
    simp only [splitOnce] at h
    split at h
    next hc =>
      simp only [Option.some.injEq, Prod.mk.injEq] at h
      rw [← h.1]
      simp
    next hc =>
      split at h
      next x' y' hs =>
        simp only [Option.some.injEq, Prod.mk.injEq] at h
        obtain ⟨h1, h2⟩ := h
        rw [← h1]
        intro hmem
        rcases List.mem_cons.mp hmem with he | hm
        · exact hc he.symm
        · exact ih hs hm
      next =>
        exact Option.noConfusion h

/-- Splitting at the first separator of `u ++ sep :: p` when `u` is
separator-free yields exactly `(u, p)`. -/
theorem splitOnce_of_no_sep {sep : Nat} {u : List Nat} (h : sep ∉ u) (p : List Nat) :
    splitOnce sep (u ++ sep :: p) = some (u, p) := by
  induction u with
  | nil =>
    simp [splitOnce]
  | cons a rest ih =>
    have ha : ¬ a = sep := by
      intro he
      exact h (by rw [he]; exact List.mem_cons_self _ _)
    have hrest : sep ∉ rest := fun hm => h (List.mem_cons_of_mem _ hm)
    simp [splitOnce, ha, ih hrest]

/-- C2: `check_auth` returns `true` exactly when the header parses as a
Basic credential whose decoded pair equals the configured pair under
exact, case-sensitive equality; every failure (missing header, wrong
scheme, invalid base64, invalid UTF-8, missing `:` separator, wrong
username, wrong password) yields `false`. The function is total by
construction, so it never raises. -/
theorem C2_check_auth_iff (U P : List Nat) (hdr : Option (List Nat)) :
    check_auth U P hdr = true ↔ basicAuthAccepts U P hdr := by
  constructor
  · intro h
    cases hdr with
    | none =>
      exact absurd h (by simp [check_auth])
    | some s =>
      simp only [check_auth] at h
      split at h
      next =>
        exact absurd h (by simp)
      next hs =>
        split at h
        next =>
          exact absurd h (by simp)
        next t c hsp =>
          split at h
          next =>
            exact absurd h (by simp)
          next hlow =>
            split at h
            next =>
              exact absurd h (by simp)
            next bs hb =>
              split at h
              next =>
                exact absurd h (by simp)
              next cps hu =>
                split at h
                next =>
                  exact absurd h (by simp)
                next u p hsc =>
                  rw [Bool.and_eq_true, beq_iff_eq, beq_iff_eq] at h
                  exact ⟨s, t, c, bs, cps, u, p, rfl, hsp, not_not.mp hlow,
                    hb, hu, hsc, h.1, h.2⟩
  · rintro ⟨s, t, c, bs, cps, u, p, rfl, hsp, hlow, hb, hu, hsc, rfl, rfl⟩
    have hs : s ≠ [] := by
      intro he
      subst he
      simp [splitOnce] at hsp
    simp only [check_auth, if_neg hs, hsp, hlow, hb, hu, hsc]
    simp

/-- Closed witness for C2: the default configured pair is accepted. -/
theorem C2_check_auth_iff_witness :
    check_auth (asciiStr "admin") (asciiStr "pogocam2025")
      (some (asciiStr "Basic YWRtaW46cG9nb2NhbTIwMjU=")) = true :=
  (C2_check_auth_iff (asciiStr "admin") (asciiStr "pogocam2025")
      (some (asciiStr "Basic YWRtaW46cG9nb2NhbTIwMjU="))).mpr
    ⟨asciiStr "Basic YWRtaW46cG9nb2NhbTIwMjU=", asciiStr "Basic",
      asciiStr "YWRtaW46cG9nb2NhbTIwMjU=", asciiStr "admin:pogocam2025",
      asciiStr "admin:pogocam2025", asciiStr "admin", asciiStr "pogocam2025",
      rfl, by decide, by decide, by decide, by decide, by decide, rfl, rfl⟩

/-- General scheme-token insensitivity: two headers differing only in a
scheme token with the same `str.lower` image authenticate alike. -/
theorem check_auth_scheme_token {U P t t' : List Nat} (h : pyLower t = pyLower t')
    (h32 : 32 ∉ t) (h32' : 32 ∉ t') (c : List Nat) :
    check_auth U P (some (t ++ 32 :: c)) = check_auth U P (some (t' ++ 32 :: c)) := by
  have hne : t ++ 32 :: c ≠ [] := by
    intro he
    have := congrArg List.length he
    simp at this
  have hne' : t' ++ 32 :: c ≠ [] := by
    intro he
    have := congrArg List.length he
    simp at this
  simp only [check_auth, if_neg hne, if_neg hne',
    splitOnce_of_no_sep h32 c, splitOnce_of_no_sep h32' c]
  rw [h]

/-- C10: the decoded payload is split at the FIRST `:` only, so a
password containing `:` is presentable (everything after the first
colon, colons included, is compared as the password), while a username
containing `:` can never authenticate, because the first split
component is always colon-free; and the scheme token is matched
case-insensitively. -/
theorem C10_colon_split_scheme_case (U P : List Nat) :
    (58 ∈ U → ∀ hdr, check_auth U P hdr = false) ∧
    (58 ∉ U → ∀ s t c bs, splitOnce 32 s = some (t, c) →
      pyLower t = asciiStr "basic" → b64decode c = some bs →
      utf8Decode bs = some (U ++ 58 :: P) →
      check_auth U P (some s) = true) ∧
    (∀ c, check_auth U P (some (asciiStr "BASIC " ++ c)) =
        check_auth U P (some (asciiStr "Basic " ++ c)) ∧
      check_auth U P (some (asciiStr "basic " ++ c)) =
        check_auth U P (some (asciiStr "Basic " ++ c))) := by
  refine ⟨?_, ?_, ?_⟩
  · intro hcolon hdr
    cases hdr with
    | none => rfl
    | some s =>
      simp only [check_auth]
      split
      next => rfl
      next hs =>
        split
        next => rfl
        next t c hsp =>
          split
          next => rfl
          next hlow =>
            split
            next => rfl
            next bs hb =>
              split
              next => rfl
              next cps hu =>
                split
                next => rfl
                next u p hsc =>
                  have hnu : 58 ∉ u := splitOnce_fst_no_sep hsc
                  have hne : u ≠ U := fun he => hnu (he ▸ hcolon)
                  rw [beq_eq_false_iff_ne.mpr hne, Bool.false_and]
  · intro hU s t c bs hsp hlow hb hu
    have hs : s ≠ [] := by
      intro he
      subst he
      simp [splitOnce] at hsp
    simp only [check_auth, if_neg hs, hsp, hlow, hb, hu, splitOnce_of_no_sep hU P]
    simp
  · intro c
    have e1 : asciiStr "BASIC " ++ c = asciiStr "BASIC" ++ 32 :: c := by
      have : asciiStr "BASIC " = asciiStr "BASIC" ++ [32] := by decide
      rw [this, List.append_assoc]
      rfl
    have e2 : asciiStr "Basic " ++ c = asciiStr "Basic" ++ 32 :: c := by
      have : asciiStr "Basic " = asciiStr "Basic" ++ [32] := by decide
      rw [this, List.append_assoc]
      rfl
    have e3 : asciiStr "basic " ++ c = asciiStr "basic" ++ 32 :: c := by
      have : asciiStr "basic " = asciiStr "basic" ++ [32] := by decide
      rw [this, List.append_assoc]
      rfl
    constructor
    · rw [e1, e2]
      exact check_auth_scheme_token (by decide) (by decide) (by decide) c
    · rw [e3, e2]
      exact check_auth_scheme_token (by decide) (by decide) (by decide) c

/-- Closed witness for C10: a password with a colon authenticates with
its exact encoding; a username with a colon never authenticates; the
upper-case scheme token behaves like the canonical one. -/
theorem C10_colon_split_scheme_case_witness :
    check_auth (asciiStr "admin") (asciiStr "se:cret")
      (some (asciiStr "Basic YWRtaW46c2U6Y3JldA==")) = true ∧
    check_auth (asciiStr "ad:min") (asciiStr "secret")
      (some (asciiStr "Basic YWQ6bWluOnNlY3JldA==")) = false ∧
    check_auth (asciiStr "admin") (asciiStr "secret")
      (some (asciiStr "BASIC " ++ asciiStr "YWRtaW46c2VjcmV0")) =
      check_auth (asciiStr "admin") (asciiStr "secret")
        (some (asciiStr "Basic " ++ asciiStr "YWRtaW46c2VjcmV0")) :=
  ⟨(C10_colon_split_scheme_case (asciiStr "admin") (asciiStr "se:cret")).2.1
      (by decide) (asciiStr "Basic YWRtaW46c2U6Y3JldA==") (asciiStr "Basic")
      (asciiStr "YWRtaW46c2U6Y3JldA==") (asciiStr "admin:se:cret")
      (by decide) (by decide) (by decide) (by decide),
    (C10_colon_split_scheme_case (asciiStr "ad:min") (asciiStr "secret")).1
      (by decide) (some (asciiStr "Basic YWQ6bWluOnNlY3JldA==")),
    ((C10_colon_split_scheme_case (asciiStr "admin") (asciiStr "secret")).2.2
      (asciiStr "YWRtaW46c2VjcmV0")).1⟩

theorem decDecode_append_digit (xs : List Nat) (d : Nat) :
    decDecode (xs ++ [d]) = decDecode xs * 10 + (d - 48) := by
  simp [decDecode, List.foldl_append]

theorem decDigitsAux_decode : ∀ fuel n, n ≤ fuel → decDecode (decDigitsAux fuel n) = n := by
  intro fuel
  induction fuel with
  | zero =>
    intro n hn
    have : n = 0 := Nat.le_zero.mp hn
    subst this
    rfl
  | succ fuel ih =>
    intro n hn
    by_cases h0 : n = 0
    · subst h0
      rfl
    · simp only [decDigitsAux, if_neg h0]
      rw [decDecode_append_digit, ih (n / 10) (by omega)]
      omega

theorem decDigitsAux_digits : ∀ fuel n d, d ∈ decDigitsAux fuel n → 48 ≤ d ∧ d ≤ 57 := by
  intro fuel
  induction fuel with
  | zero =>
    intro n d hd
    simp [decDigitsAux] at hd
  | succ fuel ih =>
    intro n d hd
    simp only [decDigitsAux] at hd
    by_cases h0 : n = 0
    · rw [if_pos h0] at hd
      simp at hd
    · rw [if_neg h0] at hd
      rcases List.mem_append.mp hd with hm | hm
      · exact ih _ _ hm
      · simp at hm
        omega

theorem natToDec_decode (n : Nat) : decDecode (natToDec n) = n := by
  by_cases h0 : n = 0
  · subst h0
    rfl
  · simp only [natToDec, if_neg h0]
    exact decDigitsAux_decode (n + 1) n (Nat.le_succ n)

theorem natToDec_ne_nil (n : Nat) : natToDec n ≠ [] := by
  by_cases h0 : n = 0
  · subst h0
    simp [natToDec]
  · simp only [natToDec, if_neg h0, decDigitsAux]
    simp [h0]

theorem natToDec_digits {n d : Nat} (h : d ∈ natToDec n) : 48 ≤ d ∧ d ≤ 57 := by
  by_cases h0 : n = 0
  · subst h0
    simp [natToDec] at h
    omega
  · rw [natToDec, if_neg h0] at h
    exact decDigitsAux_digits _ _ _ h

/-- C4: each frame delivery writes exactly one multipart part: the
boundary line `--FRAME`, a `Content-Type: image/jpeg` header line, a
`Content-Length` header whose ASCII-decimal value equals the byte
length of the frame, a blank line, the raw frame bytes, and a trailing
CRLF. -/
theorem C4_multipart_part (frame : List Nat) :
    framePart frame =
      asciiStr "--FRAME" ++ asciiStr "\r\n" ++
      asciiStr "Content-Type: image/jpeg" ++ asciiStr "\r\n" ++
      asciiStr "Content-Length: " ++ natToDec frame.length ++ asciiStr "\r\n" ++
      asciiStr "\r\n" ++ frame ++ asciiStr "\r\n" ∧
    decDecode (natToDec frame.length) = frame.length ∧
    natToDec frame.length ≠ [] ∧
    ∀ d ∈ natToDec frame.length, 48 ≤ d ∧ d ≤ 57 := by
  refine ⟨?_, natToDec_decode _, natToDec_ne_nil _, fun d hd => natToDec_digits hd⟩
  have h1 : asciiStr "--FRAME\r\n" = asciiStr "--FRAME" ++ asciiStr "\r\n" := by decide
  have h2 : asciiStr "Content-Type: image/jpeg\r\n" =
      asciiStr "Content-Type: image/jpeg" ++ asciiStr "\r\n" := by decide
  simp only [framePart, framePartChunks, List.flatten, h1, h2, List.append_nil,
    List.append_assoc]

/-- Closed witness for C4: the digits of the length header of a
one-byte frame. -/
theorem C4_multipart_part_witness : 48 ≤ 49 ∧ 49 ≤ 57 :=
  (C4_multipart_part [65]).2.2.2 49 (by decide)

/-- C6: once a connection write raises, the session is closed: the
rest of its schedule is never consumed (no further waits on the slot,
no further writes, no retry), the resulting trace ends at the raise,
and the session's phase is the terminal `closed`. -/
theorem C6_write_failure_closes {pre : List (List Nat × Nat)} {f : List Nat} {k : Nat}
    (rest : List (List Nat × Nat)) (hpre : ∀ x ∈ pre, 4 ≤ x.2) (hk : k < 4) :
    runStream (pre ++ (f, k) :: rest) = runStream (pre ++ [(f, k)]) ∧
    (runStream (pre ++ [(f, k)])).2 = SPhase.closed ∧
    (runStream (pre ++ [(f, k)])).1.getLast? = some SEv.raised := by
  induction pre with
  | nil =>
    have hnk : ¬ 4 ≤ k := by omega
    refine ⟨?_, ?_, ?_⟩
    · simp only [List.nil_append, runStream, if_neg hnk]
    · simp only [List.nil_append, runStream, if_neg hnk]
    · simp only [List.nil_append, runStream, if_neg hnk]
      rw [List.getLast?_concat]
  | cons x pre' ih =>
    obtain ⟨fx, kx⟩ := x
    have hx : 4 ≤ kx := hpre (fx, kx) (List.mem_cons_self _ _)
    have hpre' : ∀ y ∈ pre', 4 ≤ y.2 := fun y hy => hpre y (List.mem_cons_of_mem _ hy)
    obtain ⟨ih1, ih2, ih3⟩ := ih hpre'
    have hnn : (runStream (pre' ++ [(f, k)])).1 ≠ [] := by
      intro he
      rw [he] at ih3
      exact Option.noConfusion ih3
    refine ⟨?_, ?_, ?_⟩
    · simp only [List.cons_append]
      simp only [runStream, if_pos hx]
      rw [ih1]
    · simp only [List.cons_append]
      simp only [runStream, if_pos hx]
      exact ih2
    · simp only [List.cons_append]
      simp only [runStream, if_pos hx]
      rw [List.getLast?_append_of_ne_nil _ hnn]
      exact ih3

/-- Closed witness for C6: one good iteration, then a failed write. -/
theorem C6_write_failure_closes_witness :
    runStream ([([1], 4)] ++ ([2], 1) :: [([3], 4)]) =
      runStream ([([1], 4)] ++ [([2], 1)]) ∧
    (runStream ([([1], 4)] ++ [([2], 1)])).2 = SPhase.closed ∧
    (runStream ([([1], 4)] ++ [([2], 1)])).1.getLast? = some SEv.raised :=
  @C6_write_failure_closes [([1], 4)] [2] 1 [([3], 4)] (by decide) (by decide)

/-- C5: whenever the credential check fails, `do_GET` — on every path —
emits exactly the fixed 401 challenge (status 401 with a
`WWW-Authenticate: Basic` header) and performs no wait on and no read
of the frame slot. -/
theorem C5_unauthorized_401 {U P : List Nat} {hdr : Option (List Nat)} (path : String)
    (sched : List (List Nat × Nat)) (hfail : check_auth U P hdr = false) :
    do_GET U P hdr path sched = send_auth_request ∧
    HEv.sentResponse 401 ∈ do_GET U P hdr path sched ∧
    HEv.sentHeader "WWW-Authenticate" "Basic realm=\"Pi Camera\"" ∈
      do_GET U P hdr path sched ∧
    ∀ f, HEv.slotWait f ∉ do_GET U P hdr path sched := by
  have hg : do_GET U P hdr path sched = send_auth_request := by
    simp [do_GET, hfail]
  refine ⟨hg, ?_, ?_, ?_⟩
  · rw [hg]
    simp [send_auth_request]
  · rw [hg]
    simp [send_auth_request]
  · intro f
    rw [hg]
    simp [send_auth_request]

/-- Closed witness for C5: a request with no header on the stream path. -/
theorem C5_unauthorized_401_witness :
    do_GET (asciiStr "admin") (asciiStr "pogocam2025") none "/stream.mjpg" [([9], 4)] =
      send_auth_request :=
  (@C5_unauthorized_401 (asciiStr "admin") (asciiStr "pogocam2025") none "/stream.mjpg"
    [([9], 4)] (by decide)).1

/-- C8: any two requests whose credential checks fail receive
byte-for-byte the same response, whatever the failure reason, the
request path, or the frame schedule — the response reveals nothing
about which part of the credential was wrong. -/
theorem C8_uniform_failure {U P : List Nat} {h1 h2 : Option (List Nat)}
    (p1 p2 : String) (s1 s2 : List (List Nat × Nat))
    (hf1 : check_auth U P h1 = false) (hf2 : check_auth U P h2 = false) :
    do_GET U P h1 p1 s1 = do_GET U P h2 p2 s2 := by
  simp [do_GET, hf1, hf2]

/-- Closed witness for C8: missing header vs wrong password. -/
theorem C8_uniform_failure_witness :
    do_GET (asciiStr "admin") (asciiStr "pogocam2025") none "/stream.mjpg" [] =
      do_GET (asciiStr "admin") (asciiStr "pogocam2025")
        (some (asciiStr "Basic Zm9vOmJhcg==")) "/" [([1], 4)] :=
  @C8_uniform_failure (asciiStr "admin") (asciiStr "pogocam2025") none
    (some (asciiStr "Basic Zm9vOmJhcg==")) "/stream.mjpg" "/" [] [([1], 4)]
    (by decide) (by decide)

/-- C9: if camera construction, configuration, or `start_recording`
fails, the process exits non-zero and the listening socket is never
bound; moreover the listener is only ever bound in runs where
`start_recording` completed first. -/
theorem C9_startup_failure (initOk configOk startOk bindOk : Bool) :
    ((initOk = false ∨ configOk = false ∨ startOk = false) →
      MEv.boundListener ∉ (mainRun initOk configOk startOk bindOk).1 ∧
      (mainRun initOk configOk startOk bindOk).2 ≠ 0) ∧
    (MEv.boundListener ∈ (mainRun initOk configOk startOk bindOk).1 →
      MEv.startRecording ∈ (mainRun initOk configOk startOk bindOk).1) := by
  cases initOk <;> cases configOk <;> cases startOk <;> cases bindOk <;>
    simp [mainRun]

/-- Closed witness for C9: camera construction fails. -/
theorem C9_startup_failure_witness :
    MEv.boundListener ∉ (mainRun false true true true).1 ∧
    (mainRun false true true true).2 ≠ 0 :=
  (C9_startup_failure false true true true).1 (Or.inl rfl)
